import Mathlib

/-!
A shallow embedding of the interactive project launcher in `src/main.rs`:
the filter-as-you-type engine, the list-selection state, the two-mode key
dispatch, and the event loop with its final editor hand-off.  Strings are
Lean `String`s (`OsString` and `PathBuf` are modelled as strings), machine
`usize` arithmetic appears only through saturation at `2 ^ 64 - 1`, and the
two `.unwrap()` call sites are modelled as `Option` results where `none`
marks a panic.
-/

namespace PL

/-- `usize::MAX` on the 64-bit targets the program runs on. -/
def usizeMax : Nat := 2 ^ 64 - 1

/-- The `Project` record (main.rs lines 81–85): a display name derived from the
directory base name and the directory path. -/
structure Project where
  project_name : String
  project_path : String
deriving Repr, DecidableEq

/-- The two-state `InputMode` enum (main.rs lines 74–79). -/
inductive InputMode where
  | Normal
  | Editing
deriving Repr, DecidableEq

/-- The aggregate `App` state (main.rs lines 57–66) together with the fields of
the embedded `tui_input::Input` buffer (value and cursor) and the `selected`
field of the `ratatui` `ListState`. -/
structure AppState where
  projects : List Project
  filtered_projects : List Project
  input_value : String
  input_cursor : Nat
  input_mode : InputMode
  selected : Option Nat
  pending_open : Bool
  exit : Bool
deriving Repr, DecidableEq

/-- Modelled from ratatui `ListState::select_next`: the next index, or 0 when
nothing is selected; the increment saturates at `usize::MAX` and is not
bounded by the list length (clamping happens only at render time). -/
def select_next (s : Option Nat) : Option Nat :=
  some (match s with
        | none => 0
        | some i => min (i + 1) usizeMax)

/-- Modelled from ratatui `ListState::select_previous`: the previous index
(saturating at 0), or `usize::MAX` when nothing is selected. -/
def select_previous (s : Option Nat) : Option Nat :=
  some (match s with
        | none => usizeMax
        | some i => i - 1)

/-- Modelled from ratatui `ListState::select_first`: always `Some 0`,
regardless of the list length (even for an empty list). -/
def select_first : Option Nat := some 0

/-- Modelled from ratatui `ListState::select_last`: `Some usize::MAX`,
clamped to the real last index only at render time. -/
def select_last : Option Nat := some usizeMax

/-- Rust `char::to_lowercase` restricted to the one-to-one ASCII case, the
only case the launcher's matching exercises: `A`..`Z` map to `a`..`z`. -/
def charToLower (c : Char) : Char :=
  if 'A' ≤ c ∧ c ≤ 'Z' then Char.ofNat (c.toNat + 32) else c

/-- Rust `str::to_lowercase`, character by character. -/
def strToLower (s : String) : String := ⟨s.data.map charToLower⟩

/-- Rust `str::is_empty`. -/
def strIsEmpty (s : String) : Bool := s.data.isEmpty

/-- Does `hay` start with `needle`?  (Helper for substring containment.) -/
def beginsWith : List Char → List Char → Bool
  | [], _ => true
  | _ :: _, [] => false
  | a :: as, b :: bs => a == b && beginsWith as bs

/-- Does the haystack contain `needle` as a contiguous run?  (Helper for
Rust `str::contains`.) -/
def strContainsAux (needle : List Char) : List Char → Bool
  | [] => needle.isEmpty
  | c :: rest => beginsWith needle (c :: rest) || strContainsAux needle rest

/-- Rust `str::contains(&q)`: `hay` contains `needle` as a contiguous
substring. -/
def strContains (hay needle : String) : Bool :=
  strContainsAux needle.data hay.data

/-- The per-project test of `filter_results` (main.rs line 168): the
lowercased project name contains the (already lowercased) query `q`. -/
def matchesQuery (q : String) (p : Project) : Bool :=
  strContains (strToLower p.project_name) q

/-- The pure filter of `App::filter_results` (main.rs lines 159–171): lowercase
the query; an empty query returns the full list, otherwise keep exactly the
projects whose lowercased name contains it. -/
def filterProjects (all : List Project) (query : String) : List Project :=
  let q := strToLower query
  if strIsEmpty q then all else all.filter (matchesQuery q)

/-- `App::filter_results` (main.rs lines 159–178): recompute
`filtered_projects` from `projects` and the live input value, then set the
selection to `None` when the result is empty and to the first row otherwise. -/
def filter_results (a : AppState) : AppState :=
  { a with
    filtered_projects := filterProjects a.projects a.input_value,
    selected := if (filterProjects a.projects a.input_value).isEmpty then none
                else select_first }

/-- `App::exit` (main.rs lines 180–182). -/
def exitApp (a : AppState) : AppState := { a with exit := true }

/-- `App::open_project` (main.rs lines 184–187): set the pending-open flag and
leave the loop; the selection itself is not inspected here. -/
def open_project (a : AppState) : AppState :=
  { a with pending_open := true, exit := true }

/-- `App::start_editing` (main.rs lines 190–192). -/
def start_editing (a : AppState) : AppState :=
  { a with input_mode := InputMode.Editing }

/-- `App::stop_editing` (main.rs lines 194–196). -/
def stop_editing (a : AppState) : AppState :=
  { a with input_mode := InputMode.Normal }

/-- The key codes the dispatch tables distinguish (from crossterm). -/
inductive KeyCode where
  | Char (c : Char)
  | Esc
  | Enter
  | Up
  | Down
  | Left
  | Right
  | Backspace
deriving Repr, DecidableEq

/-- The modifier sets the dispatch tables distinguish (from crossterm). -/
inductive KeyModifiers where
  | NONE
  | CONTROL
  | SHIFT
  | ALT
deriving Repr, DecidableEq

/-- A key press event (crossterm `KeyEvent`, restricted to the fields the
program reads). -/
structure KeyEvent where
  code : KeyCode
  modifiers : KeyModifiers
deriving Repr, DecidableEq

/-- Modelled from the external `tui_input` crate's `handle_event`: a plain
character key inserts at the cursor, Backspace deletes before the cursor,
Left and Right move the cursor, everything else leaves the buffer alone. -/
def input_handle_event (value : String) (cursor : Nat) (k : KeyEvent) :
    String × Nat :=
  match k.code, k.modifiers with
  | KeyCode.Char c, KeyModifiers.NONE =>
      (⟨value.data.take cursor ++ c :: value.data.drop cursor⟩, cursor + 1)
  | KeyCode.Char c, KeyModifiers.SHIFT =>
      (⟨value.data.take cursor ++ c :: value.data.drop cursor⟩, cursor + 1)
  | KeyCode.Backspace, KeyModifiers.NONE =>
      (⟨value.data.take (cursor - 1) ++ value.data.drop cursor⟩, cursor - 1)
  | KeyCode.Left, KeyModifiers.NONE => (value, cursor - 1)
  | KeyCode.Right, KeyModifiers.NONE =>
      (value, min (cursor + 1) value.data.length)
  | _, _ => (value, cursor)

/-- `App::handle_key_event` (main.rs lines 131–157).  In `Normal` mode the
match is on the key code alone; in `Editing` mode it is on the
code-and-modifiers pair, and the fall-through arm forwards the event to the
input buffer and recomputes the filter. -/
def handle_key_event (a : AppState) (k : KeyEvent) : AppState :=
  match a.input_mode with
  | InputMode.Normal =>
    match k.code with
    | KeyCode.Char 'q' => exitApp a
    | KeyCode.Esc => exitApp a
    | KeyCode.Char 'j' => { a with selected := select_next a.selected }
    | KeyCode.Down => { a with selected := select_next a.selected }
    | KeyCode.Char 'k' => { a with selected := select_previous a.selected }
    | KeyCode.Up => { a with selected := select_previous a.selected }
    | KeyCode.Char 'G' => { a with selected := select_last }
    | KeyCode.Char '/' => start_editing a
    | KeyCode.Enter => open_project a
    | _ => a
  | InputMode.Editing =>
    match k.code, k.modifiers with
    | KeyCode.Esc, KeyModifiers.NONE => stop_editing a
    | KeyCode.Enter, KeyModifiers.NONE => stop_editing a
    | KeyCode.Char 'n', KeyModifiers.CONTROL =>
        { a with selected := select_next a.selected }
    | KeyCode.Down, KeyModifiers.NONE =>
        { a with selected := select_next a.selected }
    | KeyCode.Char 'p', KeyModifiers.CONTROL =>
        { a with selected := select_previous a.selected }
    | KeyCode.Up, KeyModifiers.NONE =>
        { a with selected := select_previous a.selected }
    | _, _ =>
        let vi := input_handle_event a.input_value a.input_cursor k
        filter_results { a with input_value := vi.1, input_cursor := vi.2 }

/-- The startup initialization of `App::run` (main.rs lines 89–98): mode set to
`Editing`, the discovered projects copied into the filtered list, and then
`ListState::select_first` — unconditionally, even when discovery found
nothing. -/
def initApp (projects : List Project) : AppState :=
  { projects := projects
    filtered_projects := projects
    input_value := ""
    input_cursor := 0
    input_mode := InputMode.Editing
    selected := select_first
    pending_open := false
    exit := false }

/-- Modelled from ratatui's `List` render (called by `render_project_list`,
main.rs lines 226–239): rendering an empty list returns early and leaves the
selection untouched; otherwise an out-of-range selection is clamped to the
last item. -/
def render_list_clamp (a : AppState) : AppState :=
  if a.filtered_projects.isEmpty then a
  else
    { a with
      selected := a.selected.map (fun i => min i (a.filtered_projects.length - 1)) }

/-- The partial lookup of `App::render_readme` (main.rs lines 241–250): with no
selection it returns early; with `Some i` it does
`filtered_projects.get(i).unwrap()`, which panics exactly when the index is
out of range. -/
def render_readme_panics (a : AppState) : Bool :=
  match a.selected with
  | none => false
  | some i => (a.filtered_projects[i]?).isNone

/-- One `terminal.draw` pass (main.rs lines 117–119 and 199–209): the list
render clamps the selection, then the README render may panic; `none` is the
panic. -/
def draw (a : AppState) : Option AppState :=
  let b := render_list_clamp a
  if render_readme_panics b then none else some b

/-- The event loop of `App::run` (main.rs lines 100–103) driven by a finite key
script: while the exit flag is unset, draw and then dispatch one key event.
`none` is a panic during a draw; if the script runs out first the loop is
still blocked reading input and the current state is returned. -/
def runEvents : AppState → List KeyEvent → Option AppState
  | a, [] => some a
  | a, k :: ks =>
    if a.exit then some a
    else
      match draw a with
      | none => none
      | some b => runEvents (handle_key_event b k) ks

/-- The hand-off after the loop (main.rs lines 105–112): when a selection
exists and the pending-open flag is set, the selected index is looked up in
`self.projects` — the full list, not `filtered_projects` — and the editor is
invoked with that project's path as its sole argument.  `none` is the
`.unwrap()` panic; `some none` means no editor was launched; `some (some p)`
means the editor ran on path `p`. -/
def final_open (a : AppState) : Option (Option String) :=
  match a.selected, a.pending_open with
  | some i, true =>
    match a.projects[i]? with
    | some p => some (some p.project_path)
    | none => none
  | _, _ => some none

/-- A whole run of the program on a key script: startup initialization, the
event loop, then the hand-off.  When the script ends before the exit flag is
set the program is still blocked in the loop and no editor has been invoked. -/
def runProgram (projects : List Project) (events : List KeyEvent) :
    Option (Option String) :=
  match runEvents (initApp projects) events with
  | none => none
  | some a => if a.exit then final_open a else some none

/-- The three state operations the selection invariant ranges over: the two
navigation moves and a filter recomputation after the query buffer changed
to `q`. -/
inductive NavOp where
  | next
  | previous
  | filterQ (q : String)

/-- Apply one operation to the app state, exactly as `handle_key_event` does:
the navigation arms write through `ListState`, the filter arm recomputes
`filter_results` on the updated query. -/
def applyOp (a : AppState) : NavOp → AppState
  | NavOp.next => { a with selected := select_next a.selected }
  | NavOp.previous => { a with selected := select_previous a.selected }
  | NavOp.filterQ q => filter_results { a with input_value := q }

/-- Apply a sequence of operations, left to right. -/
def applyOps (a : AppState) : List NavOp → AppState
  | [] => a
  | op :: ops => applyOps (applyOp a op) ops

/-- The §3 selection invariant of the spec, as a decidable check: an empty
filtered list must carry no selection, a non-empty one a selection strictly
below its length. -/
def selectionInvariant (a : AppState) : Bool :=
  match a.filtered_projects, a.selected with
  | [], none => true
  | [], some _ => false
  | _ :: _, none => false
  | l, some i => decide (i < l.length)

/-- `PathBuf::join` with a relative component: insert exactly one separator. -/
def pathJoin (base rest : String) : String := base ++ "/" ++ rest

/-- Rust `proj_dir.strip_prefix("~/").is_some()`: does the string start with
the two characters `~/`? -/
def startsWithTildeSlash (s : String) : Bool :=
  match s.data with
  | c1 :: c2 :: _ => c1 == '~' && c2 == '/'
  | _ => false

/-- `parse_dir` (main.rs lines 285–295), with the home directory (obtained
from the `dirs` crate) passed explicitly: `~` alone becomes the home
directory, a `~/rest` prefix is stripped and `rest` joined onto the home
directory, anything else passes through unchanged. -/
def parse_dir (home : String) (proj_dir : String) : String :=
  if proj_dir = "~" then home
  else if startsWithTildeSlash proj_dir then
    pathJoin home (String.mk (proj_dir.data.drop 2))
  else proj_dir

/-- The spec's running example projects `alpha`, `beta`, `alphabet`. -/
def demoProjects : List Project :=
  [⟨"alpha", "/p/alpha"⟩, ⟨"beta", "/p/beta"⟩, ⟨"alphabet", "/p/alphabet"⟩]

/-- Key script: type `bet` (filters to `beta`, `alphabet`), leave editing with
Esc, confirm with Enter in Navigation mode. -/
def eventsTypeBetThenOpen : List KeyEvent :=
  [⟨KeyCode.Char 'b', KeyModifiers.NONE⟩,
   ⟨KeyCode.Char 'e', KeyModifiers.NONE⟩,
   ⟨KeyCode.Char 't', KeyModifiers.NONE⟩,
   ⟨KeyCode.Esc, KeyModifiers.NONE⟩,
   ⟨KeyCode.Enter, KeyModifiers.NONE⟩]

/-- Key script: type `z` (no project matches), press Ctrl-N, then any further
key so that one more draw happens. -/
def eventsNoMatchCtrlN : List KeyEvent :=
  [⟨KeyCode.Char 'z', KeyModifiers.NONE⟩,
   ⟨KeyCode.Char 'n', KeyModifiers.CONTROL⟩,
   ⟨KeyCode.Char 'x', KeyModifiers.NONE⟩]

/-!  Helper lemmas. -/

lemma strData_append (a b : String) : (a ++ b).data = a.data ++ b.data := by
  cases a; cases b; rfl

lemma beginsWith_iff (needle : List Char) :
    ∀ hay, beginsWith needle hay = true ↔ ∃ r, hay = needle ++ r := by
  induction needle with
  | nil =>
    intro hay
    simp [beginsWith]
  | cons a as ih =>
    intro hay
    cases hay with
    | nil => simp [beginsWith]
    | cons b bs =>
      simp only [beginsWith, Bool.and_eq_true, beq_iff_eq, ih bs,
        List.cons_append, List.cons.injEq]
      constructor
      · rintro ⟨hab, r, hr⟩
        exact ⟨r, hab.symm, hr⟩
      · rintro ⟨r, hba, hr⟩
        exact ⟨hba.symm, r, hr⟩

lemma strContainsAux_iff (needle : List Char) :
    ∀ hay, strContainsAux needle hay = true ↔ ∃ l r, hay = l ++ needle ++ r := by
  intro hay
  induction hay with
  | nil =>
    cases needle with
    | nil => simp [strContainsAux]
    | cons c cs => simp [strContainsAux]
  | cons h t ih =>
    simp only [strContainsAux, Bool.or_eq_true, beginsWith_iff, ih]
    constructor
    · rintro (⟨r, hr⟩ | ⟨l, r, hr⟩)
      · exact ⟨[], r, by simpa using hr⟩
      · exact ⟨h :: l, r, by simp [hr]⟩
    · rintro ⟨l, r, hr⟩
      cases l with
      | nil => exact Or.inl ⟨r, by simpa using hr⟩
      | cons a l =>
        refine Or.inr ⟨l, r, ?_⟩
        simp only [List.cons_append] at hr
        injection hr with h1 h2

lemma strIsEmpty_strToLower (s : String) (h : s ≠ "") :
    strIsEmpty (strToLower s) = false := by
  cases s with
  | mk l =>
    cases l with
    | nil => exact absurd rfl h
    | cons c cs => rfl

/-!  The claims. -/

/-- Claim C6: for every project list `all` and query `q`, an empty query
returns `all` unchanged (as a value), and a non-empty query returns exactly
the ordered subsequence of `all` whose lowercased name contains the
lowercased query as a contiguous substring, preserving relative order. -/
theorem filter_engine_spec (all : List Project) (query : String) :
    (query = "" → filterProjects all query = all) ∧
    (query ≠ "" →
      filterProjects all query = all.filter (matchesQuery (strToLower query)) ∧
      List.Sublist (filterProjects all query) all ∧
      (∀ p, p ∈ filterProjects all query ↔
        p ∈ all ∧ matchesQuery (strToLower query) p = true) ∧
      (∀ p, matchesQuery (strToLower query) p = true ↔
        ∃ l r, (strToLower p.project_name).data =
          l ++ (strToLower query).data ++ r)) := by
  constructor
  · rintro rfl
    rfl
  · intro hq
    have hne := strIsEmpty_strToLower query hq
    have heq : filterProjects all query = all.filter (matchesQuery (strToLower query)) := by
      unfold filterProjects
      rw [if_neg (by simp [hne])]
    refine ⟨heq, ?_, ?_, ?_⟩
    · rw [heq]; exact List.filter_sublist all
    · intro p
      rw [heq]
      exact List.mem_filter
    · intro p
      exact strContainsAux_iff (strToLower query).data (strToLower p.project_name).data

/-- Witness for C6 at the spec's running example: query `alpha` keeps exactly
the matching projects, the empty query returns the full list. -/
theorem filter_engine_spec_witness :
    filterProjects demoProjects "alpha" =
      List.filter (matchesQuery (strToLower "alpha")) demoProjects ∧
    filterProjects demoProjects "" = demoProjects :=
  ⟨((filter_engine_spec demoProjects "alpha").2 (by decide)).1,
   (filter_engine_spec demoProjects "").1 rfl⟩

/-- Claim C8: filtering is idempotent — filtering an already-filtered-by-`q`
list with the same `q` changes nothing. -/
theorem filter_idempotent (all : List Project) (query : String) :
    filterProjects (filterProjects all query) query = filterProjects all query := by
  unfold filterProjects
  by_cases h : strIsEmpty (strToLower query) = true
  · simp [h]
  · simp [h, List.filter_filter]

/-- Claim C7: every filter recomputation, whatever the prior selection and
query, sets the selection to index 0 of the new filtered list when it is
non-empty and to `None` when it is empty. -/
theorem filter_resets_selection (a : AppState) :
    ((filter_results a).filtered_projects = [] → (filter_results a).selected = none) ∧
    ((filter_results a).filtered_projects ≠ [] →
      (filter_results a).selected = some 0) ∧
    (filter_results a).filtered_projects = filterProjects a.projects a.input_value := by
  obtain ⟨pr, fp, iv, ic, im, sel, po, ex⟩ := a
  refine ⟨?_, ?_, rfl⟩ <;>
    · intro h
      simp only [filter_results] at h ⊢
      cases hf : filterProjects pr iv with
      | nil => simp [hf] at h ⊢
      | cons p ps => simp [hf, select_first] at h ⊢

/-- Witness for C7: after typing `bet` the selection is reset to row 0; after
typing the matchless `z` it is cleared. -/
theorem filter_resets_selection_witness :
    (filter_results { initApp demoProjects with input_value := "bet" }).selected =
      some 0 ∧
    (filter_results { initApp demoProjects with input_value := "z" }).selected =
      none :=
  ⟨(filter_resets_selection { initApp demoProjects with input_value := "bet" }).2.1
      (by decide),
   (filter_resets_selection { initApp demoProjects with input_value := "z" }).1
      (by decide)⟩

lemma startsWithTildeSlash_iff (s : String) :
    startsWithTildeSlash s = true ↔ ∃ rest : String, s = "~/" ++ rest := by
  cases s with
  | mk l =>
    cases l with
    | nil =>
      rw [show startsWithTildeSlash ⟨[]⟩ = false from rfl]
      constructor
      · intro h; exact Bool.noConfusion h
      · rintro ⟨⟨r⟩, h⟩
        have hd : ([] : List Char) = '~' :: '/' :: r := congrArg String.data h
        exact List.noConfusion hd
    | cons c1 t =>
      cases t with
      | nil =>
        rw [show startsWithTildeSlash ⟨[c1]⟩ = false from rfl]
        constructor
        · intro h; exact Bool.noConfusion h
        · rintro ⟨⟨r⟩, h⟩
          have hd : [c1] = '~' :: '/' :: r := congrArg String.data h
          injection hd with e1 hd2
          exact List.noConfusion hd2
      | cons c2 t2 =>
        rw [show startsWithTildeSlash ⟨c1 :: c2 :: t2⟩ = (c1 == '~' && c2 == '/')
          from rfl]
        simp only [Bool.and_eq_true, beq_iff_eq]
        constructor
        · rintro ⟨rfl, rfl⟩
          exact ⟨⟨t2⟩, rfl⟩
        · rintro ⟨⟨r⟩, h⟩
          have hd : c1 :: c2 :: t2 = '~' :: '/' :: r := congrArg String.data h
          injection hd with e1 hd2
          injection hd2 with e2 e3
          exact ⟨e1, e2⟩

/-- Claim C10: `parse_dir` maps `~` to the home directory, strips a leading
`~/` and joins the remainder onto the home directory, and passes every other
string (absolute paths, `~user` forms) through unchanged. -/
theorem parse_dir_spec (home s : String) :
    (s = "~" → parse_dir home s = home) ∧
    (∀ rest : String, s = "~/" ++ rest → parse_dir home s = pathJoin home rest) ∧
    (s ≠ "~" → startsWithTildeSlash s = false → parse_dir home s = s) ∧
    (startsWithTildeSlash s = false ↔ ∀ rest : String, s ≠ "~/" ++ rest) := by
  refine ⟨?_, ?_, ?_, ?_⟩
  · rintro rfl
    simp [parse_dir]
  · rintro rest rfl
    cases rest with
    | mk r =>
      have hne : ("~/" ++ (⟨r⟩ : String)) ≠ "~" := by
        intro h
        have hd : '~' :: '/' :: r = ['~'] := congrArg String.data h
        injection hd with e1 hd2
        exact List.noConfusion hd2
      unfold parse_dir
      rw [if_neg hne, if_pos (show startsWithTildeSlash ("~/" ++ ⟨r⟩) = true from rfl)]
      rfl
  · intro h1 h2
    unfold parse_dir
    rw [if_neg h1, if_neg (by simp [h2])]
  · constructor
    · intro hf rest h
      have ht : startsWithTildeSlash s = true :=
        (startsWithTildeSlash_iff s).2 ⟨rest, h⟩
      rw [hf] at ht
      exact Bool.noConfusion ht
    · intro hall
      cases hb : startsWithTildeSlash s
      · rfl
      · obtain ⟨rest, hr⟩ := (startsWithTildeSlash_iff s).1 hb
        exact absurd hr (hall rest)

/-- Witness for C10 at the spec's three test vectors. -/
theorem parse_dir_spec_witness :
    parse_dir "/home/u" "~" = "/home/u" ∧
    parse_dir "/home/u" "~/x/y" = pathJoin "/home/u" "x/y" ∧
    parse_dir "/home/u" "/abs/path" = "/abs/path" :=
  ⟨(parse_dir_spec "/home/u" "~").1 rfl,
   (parse_dir_spec "/home/u" "~/x/y").2.1 "x/y" (by decide),
   (parse_dir_spec "/home/u" "/abs/path").2.2.1 (by decide) (by decide)⟩

lemma min_min_of_le (x y M : Nat) (h : y ≤ M) : min (min x M) y = min x y := by
  rcases le_total x M with hx | hx
  · rw [min_eq_left hx]
  · rw [min_eq_right hx, min_eq_right h, min_eq_right (le_trans h hx)]

lemma applyOps_append (xs ys : List NavOp) :
    ∀ a : AppState, applyOps a (xs ++ ys) = applyOps (applyOps a xs) ys := by
  induction xs with
  | nil => intro a; rfl
  | cons op ops ih => intro a; simp [applyOps, ih]

lemma selectionInvariant_filter (b : AppState) (q : String) :
    selectionInvariant (applyOp b (NavOp.filterQ q)) = true := by
  obtain ⟨pr, fp, iv, ic, im, sel, po, ex⟩ := b
  simp only [applyOp, filter_results]
  cases hf : filterProjects pr q with
  | nil => simp [selectionInvariant, hf]
  | cons p ps => simp [selectionInvariant, hf, select_first]

/-- Claim C2 (amended): the §3 selection invariant holds after any sequence of
`next`/`previous`/`filter` operations whose final operation is a filter
recomputation; `next` and `previous` themselves do not preserve it (see the
counterexample). -/
theorem selection_invariant_after_filter (a : AppState) (ops : List NavOp)
    (q : String) :
    selectionInvariant (applyOps a (ops ++ [NavOp.filterQ q])) = true := by
  rw [applyOps_append]
  exact selectionInvariant_filter (applyOps a ops) q

/-- A valid state on a one-element filtered list. -/
def validSingleton : AppState :=
  { projects := [⟨"alpha", "/p/alpha"⟩]
    filtered_projects := [⟨"alpha", "/p/alpha"⟩]
    input_value := ""
    input_cursor := 0
    input_mode := InputMode.Editing
    selected := some 0
    pending_open := false
    exit := false }

/-- Counterexample to claim C2 as stated: from a valid state on a one-element
filtered list, a single `next` moves the selection to index 1, which is not
below the list length, so the invariant fails. -/
theorem selection_invariant_broken_by_next :
    selectionInvariant validSingleton = true ∧
    selectionInvariant (applyOps validSingleton [NavOp.next]) = false := by
  exact ⟨rfl, rfl⟩

/-- Navigation-mode demo state: the full demo list with the last row selected. -/
def stateThree : AppState :=
  { initApp demoProjects with input_mode := InputMode.Normal, selected := some 2 }

/-- Demo state whose query `z` matches nothing: empty filtered list, no
selection. -/
def emptyFilteredState : AppState :=
  { initApp demoProjects with
      input_value := "z", filtered_projects := [], selected := none }

/-- Counterexample to claim C3 as stated: on the length-3 list with the
selection at index 2, `next` yields index 3, not `(2 + 1) % 3 = 0`; and on an
empty filtered list `next` is not a no-op — it moves the selection from
`None` to `Some 0`. -/
theorem nav_wraparound_fails :
    ((applyOp stateThree NavOp.next).selected = some 3 ∧
      ¬(applyOp stateThree NavOp.next).selected = some ((2 + 1) % 3)) ∧
    ((applyOp emptyFilteredState NavOp.next).selected = some 0 ∧
      emptyFilteredState.selected = none ∧
      ¬applyOp emptyFilteredState NavOp.next = emptyFilteredState) := by
  refine ⟨⟨rfl, by decide⟩, rfl, rfl, by decide⟩

/-- Claim C3 (amended): `next` and `previous` do not wrap around and ignore
the list length.  On a non-empty filtered list with selection `i`, `next`
followed by the render-time clamp stops at the last index — it yields
`min (i + 1) (n - 1)`, not `(i + 1) % n` — and `previous` saturates at 0,
yielding `min (i - 1) (n - 1)` (with `-` truncated subtraction), not
`(i - 1 + n) % n`; on an empty list they are not no-ops. -/
theorem nav_no_wraparound (a : AppState) (i : Nat)
    (hne : a.filtered_projects ≠ [])
    (hsel : a.selected = some i)
    (hlen : a.filtered_projects.length ≤ usizeMax) :
    (render_list_clamp (applyOp a NavOp.next)).selected =
      some (min (i + 1) (a.filtered_projects.length - 1)) ∧
    (render_list_clamp (applyOp a NavOp.previous)).selected =
      some (min (i - 1) (a.filtered_projects.length - 1)) := by
  have hemp : a.filtered_projects.isEmpty = false := by
    cases hfp : a.filtered_projects with
    | nil => exact absurd hfp hne
    | cons p ps => rfl
  obtain ⟨pr, fp, iv, ic, im, sel, po, ex⟩ := a
  simp only at hemp hsel hlen ⊢
  subst hsel
  constructor
  · simp only [applyOp, render_list_clamp, select_next, hemp, Bool.false_eq_true,
      if_false]
    show some (min (min (i + 1) usizeMax) (fp.length - 1)) =
      some (min (i + 1) (fp.length - 1))
    exact congrArg some
      (min_min_of_le (i + 1) (fp.length - 1) usizeMax
        (le_trans (Nat.sub_le _ _) hlen))
  · simp only [applyOp, render_list_clamp, select_previous, hemp, Bool.false_eq_true,
      if_false]
    rfl

/-- Witness for the amended C3: with the last of three rows selected, `next`
plus the render clamp keeps the selection on the last row (index 2) instead
of wrapping to 0. -/
theorem nav_no_wraparound_witness :
    (render_list_clamp (applyOp stateThree NavOp.next)).selected = some 2 :=
  (nav_no_wraparound stateThree 2 (by decide) rfl (by decide)).1

/-- Claim C9: in Editing mode, Enter with no modifier only switches to
Navigation mode — it leaves the exit and pending-open flags, the query buffer
and the filtered list untouched — while Ctrl-N / plain Down run the `next`
navigation operation and Ctrl-P / plain Up run `previous`, all without
leaving Editing mode. -/
theorem editing_mode_dispatch (a : AppState)
    (h : a.input_mode = InputMode.Editing) :
    handle_key_event a ⟨KeyCode.Enter, KeyModifiers.NONE⟩ =
      { a with input_mode := InputMode.Normal } ∧
    (handle_key_event a ⟨KeyCode.Enter, KeyModifiers.NONE⟩).exit = a.exit ∧
    (handle_key_event a ⟨KeyCode.Enter, KeyModifiers.NONE⟩).pending_open =
      a.pending_open ∧
    (handle_key_event a ⟨KeyCode.Enter, KeyModifiers.NONE⟩).input_value =
      a.input_value ∧
    (handle_key_event a ⟨KeyCode.Enter, KeyModifiers.NONE⟩).filtered_projects =
      a.filtered_projects ∧
    handle_key_event a ⟨KeyCode.Char 'n', KeyModifiers.CONTROL⟩ =
      { a with selected := select_next a.selected } ∧
    handle_key_event a ⟨KeyCode.Down, KeyModifiers.NONE⟩ =
      { a with selected := select_next a.selected } ∧
    handle_key_event a ⟨KeyCode.Char 'p', KeyModifiers.CONTROL⟩ =
      { a with selected := select_previous a.selected } ∧
    handle_key_event a ⟨KeyCode.Up, KeyModifiers.NONE⟩ =
      { a with selected := select_previous a.selected } ∧
    (handle_key_event a ⟨KeyCode.Down, KeyModifiers.NONE⟩).input_mode =
      InputMode.Editing := by
  obtain ⟨pr, fp, iv, ic, im, sel, po, ex⟩ := a
  have h2 : im = InputMode.Editing := h
  subst h2
  exact ⟨rfl, rfl, rfl, rfl, rfl, rfl, rfl, rfl, rfl, rfl⟩

/-- Witness for C9: the startup state is in Editing mode; Enter merely
switches it to Navigation mode. -/
theorem editing_mode_dispatch_witness :
    handle_key_event (initApp demoProjects) ⟨KeyCode.Enter, KeyModifiers.NONE⟩ =
      { initApp demoProjects with input_mode := InputMode.Normal } :=
  (editing_mode_dispatch (initApp demoProjects) rfl).1

/-- Claim C1 fails on the code: typing `bet` filters the demo list down to
`beta, alphabet` with the selection (and highlight) on `beta` at index 0, but
confirming with Enter launches the editor on `/p/alpha` — the hand-off
indexes `self.projects`, the unfiltered list, with the filtered-list index. -/
theorem open_uses_unfiltered_index :
    runProgram demoProjects eventsTypeBetThenOpen = some (some "/p/alpha") ∧
    (runEvents (initApp demoProjects) eventsTypeBetThenOpen).map
        (fun a => (a.selected, (a.filtered_projects[0]?).map Project.project_path)) =
      some (some 0, some "/p/beta") :=
  ⟨rfl, rfl⟩

/-- Claim C4 fails on the code: with an empty discovered project list, startup
initialization still runs `ListState::select_first`, leaving the selection at
`Some 0` rather than `None`; the very first draw then panics in
`render_readme`. -/
theorem startup_empty_selection_bug :
    (initApp ([] : List Project)).selected = some 0 ∧
    (initApp ([] : List Project)).filtered_projects = [] ∧
    draw (initApp ([] : List Project)) = none :=
  ⟨rfl, rfl, rfl⟩

/-- Claim C5 fails on the code: after typing the matchless query `z` and
pressing Ctrl-N, the state has an empty filtered list with selection
`Some 0`, and the next draw panics at the
`filtered_projects.get(i).unwrap()` of `render_readme`. -/
theorem render_readme_unwrap_panics :
    runEvents (initApp demoProjects) eventsNoMatchCtrlN = none ∧
    runProgram demoProjects eventsNoMatchCtrlN = none :=
  ⟨rfl, rfl⟩

end PL
